import Mathlib

/-!
# Verification of the DOCX mail-merge generator (`file_creator.py`)

Shallow embedding of the placeholder-substitution and file-naming core of
the batch DOCX generator.  Text is modelled as `List Char`; Python's
`str.replace` / `in` operators are modelled by `replaceAll` / `containsSub`;
a document is a tree of paragraphs, tables and sections whose leaves are
formatting runs.  The per-record control flow of `create_docx_from_template`
and the batch loop of `main` are modelled with an explicit
exception-environment and a file-system state tracking the temporary copy.
-/

namespace DocxGen

/-! ## Python string primitives -/

/-- Python's substring test `needle in haystack` (the empty needle is
contained in everything). -/
def containsSub (needle : List Char) : List Char → Bool
  | [] => needle.isEmpty
  | c :: rest => needle.isPrefixOf (c :: rest) || containsSub needle rest

/-- Helper for `replaceAll`: scan the text left to right; whenever the
pattern is a prefix of the remaining text, emit the replacement and skip
the pattern; otherwise keep one character.  `fuel` bounds the recursion
(any `fuel ≥ s.length` gives the real answer for a non-empty pattern). -/
def replaceAllGo (old new : List Char) : Nat → List Char → List Char
  | _, [] => []
  | 0, s => s
  | fuel + 1, c :: rest =>
    if old.isPrefixOf (c :: rest) then
      new ++ replaceAllGo old new fuel ((c :: rest).drop old.length)
    else
      c :: replaceAllGo old new fuel rest

/-- Python's `s.replace(old, new)`: replace every non-overlapping
occurrence of `old` in `s` by `new`, scanning left to right.  For the
empty pattern Python inserts `new` at every position. -/
def replaceAll (old new s : List Char) : List Char :=
  if old.isEmpty then new ++ s.flatMap (fun c => c :: new)
  else replaceAllGo old new s.length s

/-- Helper for `splitOnL`, structurally parallel to `replaceAllGo`:
cut the text at every non-overlapping occurrence of the separator. -/
def splitGo (sep : List Char) : Nat → List Char → List (List Char)
  | _, [] => [[]]
  | 0, s => [s]
  | fuel + 1, c :: rest =>
    if sep.isPrefixOf (c :: rest) then
      [] :: splitGo sep fuel ((c :: rest).drop sep.length)
    else
      match splitGo sep fuel rest with
      | [] => [[c]]
      | t :: ts => (c :: t) :: ts

/-- Split a text at every non-overlapping occurrence of a (non-empty)
separator, like Python's `s.split(sep)`. -/
def splitOnL (sep s : List Char) : List (List Char) :=
  if sep.isEmpty then [s] else splitGo sep s.length s

/-- Join a list of pieces with a separator between consecutive pieces.
`joinWith r (splitOnL p s)` is the classical reading of "replace all
occurrences of `p` in `s` by `r`". -/
def joinWith (sep : List Char) : List (List Char) → List Char
  | [] => []
  | [t] => t
  | t :: ts => t ++ sep ++ joinWith sep ts

/-! ## Records (rows of the CSV table)

A record is an association list from field name to string value, the
shallow embedding of the Python mapping protocol used by
`row_data.get(key, default)`: the default is returned exactly when the
key is absent. -/

/-- One row of the input table: field name to field value. -/
abbrev RecordRow : Type := List (List Char × List Char)

/-- First-match lookup of a field in a record (`key in row` semantics). -/
def lookupF (row : RecordRow) (key : List Char) : Option (List Char) :=
  match row with
  | [] => none
  | kv :: rest => if kv.1 = key then some kv.2 else lookupF rest key

/-- Python's `row_data.get(key, default)`. -/
def getD (row : RecordRow) (key dflt : List Char) : List Char :=
  (lookupF row key).getD dflt

/-! ## The four recognized CSV field names and the eight placeholder keys
(`create_docx_from_template`, lines 89-99 of `file_creator.py`). -/

/-- CSV column: recipient address. -/
def addressField : List Char := "آدرس گیرنده".data

/-- CSV column: recipient phone. -/
def phoneField : List Char := "تلفن گیرنده".data

/-- CSV column: order code. -/
def orderField : List Char := "کد سفارش".data

/-- CSV column: recipient name. -/
def nameField : List Char := "نام گیرنده".data

/-- Bracketed placeholder for the address column. -/
def bracketedAddress : List Char := "\x7bستون آدرس گیرنده\x7d".data

/-- Bracketed placeholder for the phone column. -/
def bracketedPhone : List Char := "\x7bستون تلفن گیرنده\x7d".data

/-- Bracketed placeholder for the order-code column. -/
def bracketedOrder : List Char := "\x7bستون کد سفارش\x7d".data

/-- Bracketed placeholder for the name column. -/
def bracketedName : List Char := "\x7bستون نام گیرنده\x7d".data

/-- Bare-label placeholder for the address column. -/
def bareAddress : List Char := "ستون آدرس گیرنده".data

/-- Bare-label placeholder for the phone column. -/
def barePhone : List Char := "ستون تلفن گیرنده".data

/-- Bare-label placeholder for the order-code column. -/
def bareOrder : List Char := "ستون کد سفارش".data

/-- Bare-label placeholder for the name column. -/
def bareName : List Char := "ستون نام گیرنده".data

/-- The replacement map built per record by `create_docx_from_template`:
the four bracketed placeholders first, then the four bare labels, each
mapped to the record's field value with missing fields defaulting to the
empty string (`str(row_data.get(field, ""))`).  The list order is the
Python dict's insertion order, which `.items()` preserves. -/
def build_replacements (row : RecordRow) : List (List Char × List Char) :=
  [ (bracketedAddress, getD row addressField []),
    (bracketedPhone, getD row phoneField []),
    (bracketedOrder, getD row orderField []),
    (bracketedName, getD row nameField []),
    (bareAddress, getD row addressField []),
    (barePhone, getD row phoneField []),
    (bareOrder, getD row orderField []),
    (bareName, getD row nameField []) ]

/-! ## Document model

The tree of text-bearing elements exposed by the document library:
paragraphs made of formatting runs, tables of rows of cells of
paragraphs, and sections with optional header/footer, each holding
paragraphs and tables.  A run's formatting attributes (font, weight,
style) are abstracted into an opaque tag `fmt` that substitution must
not touch. -/

/-- A formatting run: a span of text with one set of style attributes. -/
structure Run where
  text : List Char
  fmt : Nat
deriving DecidableEq

/-- A paragraph: an ordered list of formatting runs. -/
structure Paragraph where
  runs : List Run
deriving DecidableEq

/-- A table cell: an ordered list of paragraphs. -/
structure TableCell where
  paragraphs : List Paragraph
deriving DecidableEq

/-- A table row: an ordered list of cells. -/
structure TableRow where
  cells : List TableCell
deriving DecidableEq

/-- A table: an ordered list of rows. -/
structure Table where
  rows : List TableRow
deriving DecidableEq

/-- A header or footer: paragraphs then tables. -/
structure HeaderFooter where
  paragraphs : List Paragraph
  tables : List Table
deriving DecidableEq

/-- A document section with its optional header and footer. -/
structure DocSection where
  header : Option HeaderFooter
  footer : Option HeaderFooter
deriving DecidableEq

/-- A document: top-level paragraphs, top-level tables, and sections. -/
structure DocxDocument where
  paragraphs : List Paragraph
  tables : List Table
  sections : List DocSection
deriving DecidableEq

/-! ## The substitution engine (`replace_text_in_paragraph`,
`replace_text_in_table`, `find_and_replace_in_document`) -/

/-- One iteration of the inner loop of `replace_text_in_paragraph`:
`if placeholder in run.text: run.text = run.text.replace(placeholder, replacement)`. -/
def applyReplacement (t : List Char) (pr : List Char × List Char) : List Char :=
  if containsSub pr.1 t then replaceAll pr.1 pr.2 t else t

/-- The full effect of `replace_text_in_paragraph` on one run's text:
the pairs of the replacement map are applied sequentially, in the map's
enumeration (insertion) order. -/
def replaceRunText (reps : List (List Char × List Char)) (t : List Char) : List Char :=
  reps.foldl applyReplacement t

/-- `replace_text_in_paragraph(paragraph, replacements)`: rewrite each
run's text in place, leaving the formatting attributes untouched. -/
def replace_text_in_paragraph (p : Paragraph) (reps : List (List Char × List Char)) :
    Paragraph :=
  ⟨p.runs.map (fun run => ⟨replaceRunText reps run.text, run.fmt⟩)⟩

/-- `replace_text_in_table(table, replacements)`: every paragraph of
every cell of every row. -/
def replace_text_in_table (t : Table) (reps : List (List Char × List Char)) : Table :=
  ⟨t.rows.map (fun row =>
    ⟨row.cells.map (fun cell =>
      ⟨cell.paragraphs.map (replace_text_in_paragraph · reps)⟩)⟩)⟩

/-- Substitution inside one header or footer: its paragraphs, then its
tables, exactly as the two inner loops of `find_and_replace_in_document`. -/
def replaceInHeaderFooter (hf : HeaderFooter) (reps : List (List Char × List Char)) :
    HeaderFooter :=
  ⟨hf.paragraphs.map (replace_text_in_paragraph · reps),
   hf.tables.map (replace_text_in_table · reps)⟩

/-- `find_and_replace_in_document(doc, replacements)`: top-level
paragraphs, then top-level tables, then for every section the header
(if present) and the footer (if present). -/
def find_and_replace_in_document (d : DocxDocument)
    (reps : List (List Char × List Char)) : DocxDocument :=
  ⟨d.paragraphs.map (replace_text_in_paragraph · reps),
   d.tables.map (replace_text_in_table · reps),
   d.sections.map (fun sec =>
     ⟨sec.header.map (replaceInHeaderFooter · reps),
      sec.footer.map (replaceInHeaderFooter · reps)⟩)⟩

/-! ## Shape and text observations on documents -/

/-- Erase a run's text, keeping its formatting tag: the "tree shape"
of a run. -/
def eraseRun (r : Run) : Run := ⟨[], r.fmt⟩

/-- Erase every run text in a paragraph. -/
def erasePar (p : Paragraph) : Paragraph := ⟨p.runs.map eraseRun⟩

/-- Erase every run text in a table. -/
def eraseTable (t : Table) : Table :=
  ⟨t.rows.map (fun row => ⟨row.cells.map (fun cell => ⟨cell.paragraphs.map erasePar⟩)⟩)⟩

/-- Erase every run text in a header or footer. -/
def eraseHeaderFooter (hf : HeaderFooter) : HeaderFooter :=
  ⟨hf.paragraphs.map erasePar, hf.tables.map eraseTable⟩

/-- The tree shape of a document: everything except the leaf run texts
(paragraph list, table/row/cell lists, section header/footer lists, run
counts and formatting tags). -/
def eraseDoc (d : DocxDocument) : DocxDocument :=
  ⟨d.paragraphs.map erasePar, d.tables.map eraseTable,
   d.sections.map (fun sec => ⟨sec.header.map eraseHeaderFooter,
                               sec.footer.map eraseHeaderFooter⟩)⟩

/-- The run texts of a paragraph, in order. -/
def paragraphTexts (p : Paragraph) : List (List Char) := p.runs.map Run.text

/-- The run texts of a table, in traversal order (rows, cells, paragraphs). -/
def tableTexts (t : Table) : List (List Char) :=
  t.rows.flatMap (fun row =>
    row.cells.flatMap (fun cell => cell.paragraphs.flatMap paragraphTexts))

/-- The run texts of a header or footer (paragraphs then tables). -/
def headerFooterTexts (hf : HeaderFooter) : List (List Char) :=
  hf.paragraphs.flatMap paragraphTexts ++ hf.tables.flatMap tableTexts

/-- The run texts contributed by a section (header then footer). -/
def sectionTexts (sec : DocSection) : List (List Char) :=
  (match sec.header with
   | some hf => headerFooterTexts hf
   | none => []) ++
  (match sec.footer with
   | some hf => headerFooterTexts hf
   | none => [])

/-- Every leaf run text of the document, in the engine's traversal
order. -/
def docTexts (d : DocxDocument) : List (List Char) :=
  d.paragraphs.flatMap paragraphTexts ++ d.tables.flatMap tableTexts ++
    d.sections.flatMap sectionTexts

/-! ## The filename generator (`generate_filename`, lines 113-126) -/

/-- The decimal digit character for `d < 10`. -/
def digitChar (d : Nat) : Char := Char.ofNat (48 + d)

/-- Decimal rendering helper, fuelled so it evaluates in the kernel
(`fuel ≥ number of digits` gives the real answer; `fuel = n` always
suffices). -/
def natCharsGo : Nat → Nat → List Char → List Char
  | 0, n, acc => digitChar (n % 10) :: acc
  | fuel + 1, n, acc =>
    if n < 10 then digitChar n :: acc
    else natCharsGo fuel (n / 10) (digitChar (n % 10) :: acc)

/-- Python's `str(index)` for a natural index: decimal digits. -/
def natChars (n : Nat) : List Char := natCharsGo n n []

/-- The characters forbidden in filenames, the character class of
`re.sub(r'[<>:"/\\|?*]', "_", filename)`. -/
def invalidChars : List Char := ['<', '>', ':', '"', '/', '\\', '|', '?', '*']

/-- The sanitization pass of `generate_filename`: every character in the
forbidden class becomes an underscore, every other character is kept. -/
def sanitize (s : List Char) : List Char :=
  s.map (fun c => if c ∈ invalidChars then '_' else c)

/-- `generate_filename(row_data, index)`: order-code key (with `/`
replaced by `_`, falling back to `order_<index>` when the field is
absent), then recipient-name key (with spaces replaced by `_`, falling
back to `customer_<index>` when absent), joined with `_`, suffixed
`.docx`, and finally sanitized. -/
def generate_filename (row : RecordRow) (index : Nat) : List Char :=
  sanitize
    (replaceAll ['/'] ['_'] (getD row orderField ("order_".data ++ natChars index)) ++
      ['_'] ++
      replaceAll [' '] ['_'] (getD row nameField ("customer_".data ++ natChars index)) ++
      ".docx".data)

/-! ## Control-flow model of `create_docx_from_template` and the batch
loop of `main`

`create_docx_from_template` wraps its whole body in `try/except` and
returns a boolean.  The body, in order: save the template to the
temporary path `temp_template.docx`, reload it as a new document, remove
the temporary file if it exists, build the replacement map and
substitute (pure computation that the interpreter may still interrupt),
and save the new document to the output path.  Each fallible step is
given an environment flag saying whether it raises; the file-system
state tracks whether the temporary copy exists on disk. -/

/-- Which steps of one instantiation raise an exception. -/
structure InstEnv where
  saveTempFails : Bool
  reloadFails : Bool
  substituteFails : Bool
  persistFails : Bool
deriving DecidableEq

/-- File-system state relevant to one instantiation: whether
`temp_template.docx` exists. -/
structure FsState where
  tempExists : Bool
deriving DecidableEq

/-- The `try` body of `create_docx_from_template`, step by step.  An
`Except.error` carries the file-system state at the moment the
exception was raised; `Except.ok` carries the state at normal return. -/
def instantiateSteps (env : InstEnv) (fs : FsState) : Except FsState FsState := do
  let fs ← if env.saveTempFails then Except.error fs
           else Except.ok { fs with tempExists := true }
  let fs ← if env.reloadFails then Except.error fs else Except.ok fs
  let fs := if fs.tempExists then { fs with tempExists := false } else fs
  let fs ← if env.substituteFails then Except.error fs else Except.ok fs
  let fs ← if env.persistFails then Except.error fs else Except.ok fs
  return fs

/-- `create_docx_from_template`'s control flow: run the body; the bare
`except` clause turns any exception into a `False` return (nothing
propagates to the caller), leaving the file system as the exception
left it. -/
def create_docx_from_template (env : InstEnv) (fs : FsState) : Bool × FsState :=
  match instantiateSteps env fs with
  | Except.ok fs' => (true, fs')
  | Except.error fs' => (false, fs')

/-- The behaviour of one iteration of `main`'s loop: `rowRaises` models
an exception in the loop body outside `create_docx_from_template`
(e.g. during filename generation), caught by the loop's own
`try/except`. -/
structure RecordEnv where
  rowRaises : Bool
  env : InstEnv
deriving DecidableEq

/-- The batch loop of `main`: for each record, either the loop body
raises before the call (counted failed), or `create_docx_from_template`
runs and its boolean is tallied.  Returns (successful_count,
failed_count, final file-system state). -/
def processRecords : List RecordEnv → FsState → Nat × Nat × FsState
  | [], fs => (0, 0, fs)
  | r :: rest, fs =>
    if r.rowRaises then
      let out := processRecords rest fs
      (out.1, out.2.1 + 1, out.2.2)
    else
      let step := create_docx_from_template r.env fs
      let out := processRecords rest step.2
      if step.1 then (out.1 + 1, out.2.1, out.2.2)
      else (out.1, out.2.1 + 1, out.2.2)

/-- The decimal digit characters, the possible output of `natChars`. -/
def decimalDigits : List Char := ['0', '1', '2', '3', '4', '5', '6', '7', '8', '9']

/-! ## Helper lemmas about the string primitives -/

theorem applyReplacement_not_contains {t : List Char} {pr : List Char × List Char}
    (h : containsSub pr.1 t = false) : applyReplacement t pr = t := by
  simp [applyReplacement, h]

theorem replaceRunText_no_key {reps : List (List Char × List Char)} {t : List Char}
    (h : ∀ pr ∈ reps, containsSub pr.1 t = false) : replaceRunText reps t = t := by
  induction reps with
  | nil => rfl
  | cons pr rest ih =>
    rw [replaceRunText, List.foldl_cons,
      applyReplacement_not_contains (h pr (List.mem_cons_self pr rest))]
    exact ih (fun q hq => h q (List.mem_cons_of_mem pr hq))

theorem replaceAllGo_not_mem (c₀ : Char) (new : List Char) :
    ∀ (fuel : Nat) (s : List Char), c₀ ∉ s → replaceAllGo [c₀] new fuel s = s := by
  intro fuel
  induction fuel with
  | zero => intro s _; cases s <;> rfl
  | succ n ih =>
    intro s hs
    cases s with
    | nil => rfl
    | cons c rest =>
      have hc : ¬ (c₀ == c) = true := by
        simp only [beq_iff_eq]
        exact fun e => hs (e ▸ List.mem_cons_self c rest)
      have hp : ¬ ([c₀].isPrefixOf (c :: rest)) = true := by
        simp [List.isPrefixOf]
        exact fun e => absurd (beq_iff_eq.mpr e) hc
      rw [replaceAllGo, if_neg hp]
      rw [ih rest (fun m => hs (List.mem_cons_of_mem c m))]

theorem replaceAll_not_mem {c₀ : Char} {new s : List Char} (h : c₀ ∉ s) :
    replaceAll [c₀] new s = s := by
  rw [replaceAll]
  simp only [List.isEmpty_cons, if_false, Bool.false_eq_true]
  exact replaceAllGo_not_mem c₀ new s.length s h

theorem sanitize_eq_self {s : List Char} (h : ∀ c ∈ s, c ∉ invalidChars) :
    sanitize s = s := by
  induction s with
  | nil => rfl
  | cons c rest ih =>
    have h1 : c ∉ invalidChars := h c (List.mem_cons_self c rest)
    have h2 : sanitize rest = rest := ih (fun q hq => h q (List.mem_cons_of_mem c hq))
    simp [sanitize, h1] at h2 ⊢
    exact h2

theorem getD_of_none {row : RecordRow} {key : List Char} (h : lookupF row key = none)
    (dflt : List Char) : getD row key dflt = dflt := by
  simp [getD, h]

theorem getD_of_some {row : RecordRow} {key v : List Char}
    (h : lookupF row key = some v) (dflt : List Char) : getD row key dflt = v := by
  simp [getD, h]

theorem sanitize_append (x y : List Char) :
    sanitize (x ++ y) = sanitize x ++ sanitize y :=
  List.map_append _ x y

/-! ## Digits of `natChars` -/

theorem digitChar_mem {d : Nat} (h : d < 10) : digitChar d ∈ decimalDigits := by
  interval_cases d <;> decide

theorem natCharsGo_mem : ∀ (fuel n : Nat) (acc : List Char) (c : Char),
    c ∈ natCharsGo fuel n acc → c ∈ decimalDigits ∨ c ∈ acc := by
  intro fuel
  induction fuel with
  | zero =>
    intro n acc c hc
    rw [natCharsGo] at hc
    rcases List.mem_cons.mp hc with h | h
    · exact Or.inl (h ▸ digitChar_mem (Nat.mod_lt _ (by omega)))
    · exact Or.inr h
  | succ fl ih =>
    intro n acc c hc
    rw [natCharsGo] at hc
    by_cases hn : n < 10
    · rw [if_pos hn] at hc
      rcases List.mem_cons.mp hc with h | h
      · exact Or.inl (h ▸ digitChar_mem hn)
      · exact Or.inr h
    · rw [if_neg hn] at hc
      rcases ih (n / 10) (digitChar (n % 10) :: acc) c hc with h | h
      · exact Or.inl h
      · rcases List.mem_cons.mp h with h' | h'
        · exact Or.inl (h' ▸ digitChar_mem (Nat.mod_lt _ (by omega)))
        · exact Or.inr h'

theorem natChars_mem {n : Nat} {c : Char} (h : c ∈ natChars n) : c ∈ decimalDigits := by
  rcases natCharsGo_mem n n [] c h with h' | h'
  · exact h'
  · cases h'

theorem decimalDigits_safe :
    ∀ c ∈ decimalDigits, c ∉ invalidChars ∧ c ≠ '/' ∧ c ≠ ' ' := by decide

/-! ## Unfolding lemmas for the per-run fold -/

theorem containsSub_pair {k v t : List Char} :
    containsSub (k, v).1 t = containsSub k t := rfl

theorem replaceRunText_cons {pr : List Char × List Char}
    {rest : List (List Char × List Char)} {t : List Char} :
    replaceRunText (pr :: rest) t = replaceRunText rest (applyReplacement t pr) := rfl

theorem replaceRunText_cons_not_contains {pr : List Char × List Char}
    {rest : List (List Char × List Char)} {t : List Char}
    (h : containsSub pr.1 t = false) :
    replaceRunText (pr :: rest) t = replaceRunText rest t := by
  rw [replaceRunText, List.foldl_cons, applyReplacement_not_contains h]; rfl

/-! ## Claim C1: filename fallback keys -/

/-- Claim C1 is refuted at this input: a record whose order-code and
recipient-name fields are both present but empty at index 5 yields the
filename `_.docx`, not the claimed `order_5_customer_5.docx` — the
fallback of `generate_filename` does not trigger on empty fields. -/
theorem c1_counterexample :
    generate_filename [(orderField, []), (nameField, [])] 5 = "_.docx".data ∧
    "_.docx".data ≠ "order_5_customer_5.docx".data :=
  ⟨by decide, by decide⟩

/-- Claim C1 (amended): for every record and index, `generate_filename`
builds `<orderKey>_<nameKey>.docx` where the primary key is the
order-code field's value with every `/` replaced by `_` whenever the
field is present — even when its value is empty, so no fallback on
present-but-empty — and `order_<index>` when the field is absent; the
secondary key is the recipient-name field's value with every space
replaced by `_` when present, and `customer_<index>` when absent; the
whole name is sanitized, which leaves the fallback segments unchanged. -/
theorem c1_fallback_absent_only (row : RecordRow) (index : Nat) :
    (∀ ov nv : List Char, lookupF row orderField = some ov →
      lookupF row nameField = some nv →
      generate_filename row index =
        sanitize (replaceAll ['/'] ['_'] ov) ++ ['_'] ++
          sanitize (replaceAll [' '] ['_'] nv) ++ ".docx".data) ∧
    (∀ ov : List Char, lookupF row orderField = some ov →
      lookupF row nameField = none →
      generate_filename row index =
        sanitize (replaceAll ['/'] ['_'] ov) ++ ['_'] ++ "customer_".data ++
          natChars index ++ ".docx".data) ∧
    (∀ nv : List Char, lookupF row orderField = none →
      lookupF row nameField = some nv →
      generate_filename row index =
        "order_".data ++ natChars index ++ ['_'] ++
          sanitize (replaceAll [' '] ['_'] nv) ++ ".docx".data) ∧
    (lookupF row orderField = none → lookupF row nameField = none →
      generate_filename row index =
        "order_".data ++ natChars index ++ ['_'] ++ "customer_".data ++
          natChars index ++ ".docx".data) := by
  have hdig : ∀ c ∈ natChars index, c ∉ invalidChars ∧ c ≠ '/' ∧ c ≠ ' ' :=
    fun c hc => decimalDigits_safe c (natChars_mem hc)
  have hOrderNoSlash : ('/' : Char) ∉ "order_".data ++ natChars index := by
    intro hmem
    rcases List.mem_append.mp hmem with hm | hm
    · exact (by decide : ('/' : Char) ∉ "order_".data) hm
    · exact (hdig _ hm).2.1 rfl
  have hCustNoSpace : (' ' : Char) ∉ "customer_".data ++ natChars index := by
    intro hmem
    rcases List.mem_append.mp hmem with hm | hm
    · exact (by decide : (' ' : Char) ∉ "customer_".data) hm
    · exact (hdig _ hm).2.2 rfl
  have sanOrder : sanitize ("order_".data ++ natChars index) =
      "order_".data ++ natChars index := by
    apply sanitize_eq_self
    intro c hc
    rcases List.mem_append.mp hc with hm | hm
    · exact (by decide : ∀ x ∈ "order_".data, x ∉ invalidChars) c hm
    · exact (hdig _ hm).1
  have sanCust : sanitize ("customer_".data ++ natChars index) =
      "customer_".data ++ natChars index := by
    apply sanitize_eq_self
    intro c hc
    rcases List.mem_append.mp hc with hm | hm
    · exact (by decide : ∀ x ∈ "customer_".data, x ∉ invalidChars) c hm
    · exact (hdig _ hm).1
  have sanUnder : sanitize ['_'] = ['_'] := by decide
  have sanExt : sanitize ".docx".data = ".docx".data := by decide
  refine ⟨?_, ?_, ?_, ?_⟩
  · intro ov nv hov hnv
    rw [generate_filename, getD_of_some hov, getD_of_some hnv,
      sanitize_append, sanitize_append, sanitize_append, sanUnder, sanExt]
  · intro ov hov hnameN
    rw [generate_filename, getD_of_some hov, getD_of_none hnameN,
      replaceAll_not_mem hCustNoSpace,
      sanitize_append, sanitize_append, sanitize_append,
      sanUnder, sanExt, sanCust]
    simp [List.append_assoc]
  · intro nv hordN hnv
    rw [generate_filename, getD_of_none hordN, getD_of_some hnv,
      replaceAll_not_mem hOrderNoSlash,
      sanitize_append, sanitize_append, sanitize_append,
      sanUnder, sanExt, sanOrder]
  · intro hordN hnameN
    rw [generate_filename, getD_of_none hordN, getD_of_none hnameN,
      replaceAll_not_mem hOrderNoSlash, replaceAll_not_mem hCustNoSpace,
      sanitize_append, sanitize_append, sanitize_append,
      sanUnder, sanExt, sanOrder, sanCust]
    simp [List.append_assoc]

/-- Witness for the amended C1 at concrete inputs: the empty record at
index 5 produces `order_5_customer_5.docx` (both fallbacks), a record
with `/` in the order code and a space in the name has both rewritten to
`_` with no fallback, and present-but-empty fields are used as-is. -/
theorem c1_witness :
    generate_filename [] 5 = "order_5_customer_5.docx".data ∧
    generate_filename [(orderField, "a/b".data), (nameField, "c d".data)] 7 =
      "a_b_c_d.docx".data ∧
    generate_filename [(orderField, []), (nameField, [])] 9 = "_.docx".data :=
  ⟨by rw [(c1_fallback_absent_only [] 5).2.2.2 (by decide) (by decide)]; decide,
   by rw [(c1_fallback_absent_only
        [(orderField, "a/b".data), (nameField, "c d".data)] 7).1
        "a/b".data "c d".data (by decide) (by decide)]; decide,
   by rw [(c1_fallback_absent_only [(orderField, []), (nameField, [])] 9).1
        [] [] (by decide) (by decide)]; decide⟩

/-! ## Claim C2: the replacement map -/

/-- Claim C2: for every record, the replacement map has exactly the
eight distinct keys — the four bracketed Persian placeholders followed
by their four bare-label counterparts — each mapped to the value of the
corresponding record field with a missing field defaulting to the empty
string; consequently, when a field is missing, substitution rewrites
both of its placeholder forms to the empty string instead of leaving
them intact. -/
theorem c2_replacement_map (row : RecordRow) :
    (build_replacements row).map Prod.fst =
      [bracketedAddress, bracketedPhone, bracketedOrder, bracketedName,
       bareAddress, barePhone, bareOrder, bareName] ∧
    ((build_replacements row).map Prod.fst).Nodup ∧
    (build_replacements row).map Prod.snd =
      [getD row addressField [], getD row phoneField [], getD row orderField [],
       getD row nameField [], getD row addressField [], getD row phoneField [],
       getD row orderField [], getD row nameField []] ∧
    (lookupF row addressField = none →
      replaceRunText (build_replacements row) bracketedAddress = [] ∧
      replaceRunText (build_replacements row) bareAddress = []) ∧
    (lookupF row phoneField = none →
      replaceRunText (build_replacements row) bracketedPhone = [] ∧
      replaceRunText (build_replacements row) barePhone = []) ∧
    (lookupF row orderField = none →
      replaceRunText (build_replacements row) bracketedOrder = [] ∧
      replaceRunText (build_replacements row) bareOrder = []) ∧
    (lookupF row nameField = none →
      replaceRunText (build_replacements row) bracketedName = [] ∧
      replaceRunText (build_replacements row) bareName = []) := by
  refine ⟨rfl, ?_, rfl, ?_, ?_, ?_, ?_⟩
  · show ([bracketedAddress, bracketedPhone, bracketedOrder, bracketedName,
          bareAddress, barePhone, bareOrder, bareName] : List (List Char)).Nodup
    decide
  · intro h
    have hv : getD row addressField [] = [] := getD_of_none h []
    refine ⟨?_, ?_⟩
    · rw [build_replacements, hv, replaceRunText_cons,
        (by decide : applyReplacement bracketedAddress
          (bracketedAddress, ([] : List Char)) = [])]
      apply replaceRunText_no_key
      intro pr hpr
      simp only [List.mem_cons, List.not_mem_nil, or_false] at hpr
      rcases hpr with rfl | rfl | rfl | rfl | rfl | rfl | rfl <;>
        (rw [containsSub_pair]; decide)
    · rw [build_replacements, hv,
        replaceRunText_cons_not_contains (by rw [containsSub_pair]; decide),
        replaceRunText_cons_not_contains (by rw [containsSub_pair]; decide),
        replaceRunText_cons_not_contains (by rw [containsSub_pair]; decide),
        replaceRunText_cons_not_contains (by rw [containsSub_pair]; decide),
        replaceRunText_cons,
        (by decide : applyReplacement bareAddress
          (bareAddress, ([] : List Char)) = [])]
      apply replaceRunText_no_key
      intro pr hpr
      simp only [List.mem_cons, List.not_mem_nil, or_false] at hpr
      rcases hpr with rfl | rfl | rfl <;> (rw [containsSub_pair]; decide)
  · intro h
    have hv : getD row phoneField [] = [] := getD_of_none h []
    refine ⟨?_, ?_⟩
    · rw [build_replacements, hv,
        replaceRunText_cons_not_contains (by rw [containsSub_pair]; decide),
        replaceRunText_cons,
        (by decide : applyReplacement bracketedPhone
          (bracketedPhone, ([] : List Char)) = [])]
      apply replaceRunText_no_key
      intro pr hpr
      simp only [List.mem_cons, List.not_mem_nil, or_false] at hpr
      rcases hpr with rfl | rfl | rfl | rfl | rfl | rfl <;>
        (rw [containsSub_pair]; decide)
    · rw [build_replacements, hv,
        replaceRunText_cons_not_contains (by rw [containsSub_pair]; decide),
        replaceRunText_cons_not_contains (by rw [containsSub_pair]; decide),
        replaceRunText_cons_not_contains (by rw [containsSub_pair]; decide),
        replaceRunText_cons_not_contains (by rw [containsSub_pair]; decide),
        replaceRunText_cons_not_contains (by rw [containsSub_pair]; decide),
        replaceRunText_cons,
        (by decide : applyReplacement barePhone
          (barePhone, ([] : List Char)) = [])]
      apply replaceRunText_no_key
      intro pr hpr
      simp only [List.mem_cons, List.not_mem_nil, or_false] at hpr
      rcases hpr with rfl | rfl <;> (rw [containsSub_pair]; decide)
  · intro h
    have hv : getD row orderField [] = [] := getD_of_none h []
    refine ⟨?_, ?_⟩
    · rw [build_replacements, hv,
        replaceRunText_cons_not_contains (by rw [containsSub_pair]; decide),
        replaceRunText_cons_not_contains (by rw [containsSub_pair]; decide),
        replaceRunText_cons,
        (by decide : applyReplacement bracketedOrder
          (bracketedOrder, ([] : List Char)) = [])]
      apply replaceRunText_no_key
      intro pr hpr
      simp only [List.mem_cons, List.not_mem_nil, or_false] at hpr
      rcases hpr with rfl | rfl | rfl | rfl | rfl <;>
        (rw [containsSub_pair]; decide)
    · rw [build_replacements, hv,
        replaceRunText_cons_not_contains (by rw [containsSub_pair]; decide),
        replaceRunText_cons_not_contains (by rw [containsSub_pair]; decide),
        replaceRunText_cons_not_contains (by rw [containsSub_pair]; decide),
        replaceRunText_cons_not_contains (by rw [containsSub_pair]; decide),
        replaceRunText_cons_not_contains (by rw [containsSub_pair]; decide),
        replaceRunText_cons_not_contains (by rw [containsSub_pair]; decide),
        replaceRunText_cons,
        (by decide : applyReplacement bareOrder
          (bareOrder, ([] : List Char)) = [])]
      apply replaceRunText_no_key
      intro pr hpr
      simp only [List.mem_cons, List.not_mem_nil, or_false] at hpr
      rcases hpr with rfl
      rw [containsSub_pair]; decide
  · intro h
    have hv : getD row nameField [] = [] := getD_of_none h []
    refine ⟨?_, ?_⟩
    · rw [build_replacements, hv,
        replaceRunText_cons_not_contains (by rw [containsSub_pair]; decide),
        replaceRunText_cons_not_contains (by rw [containsSub_pair]; decide),
        replaceRunText_cons_not_contains (by rw [containsSub_pair]; decide),
        replaceRunText_cons,
        (by decide : applyReplacement bracketedName
          (bracketedName, ([] : List Char)) = [])]
      apply replaceRunText_no_key
      intro pr hpr
      simp only [List.mem_cons, List.not_mem_nil, or_false] at hpr
      rcases hpr with rfl | rfl | rfl | rfl <;> (rw [containsSub_pair]; decide)
    · rw [build_replacements, hv,
        replaceRunText_cons_not_contains (by rw [containsSub_pair]; decide),
        replaceRunText_cons_not_contains (by rw [containsSub_pair]; decide),
        replaceRunText_cons_not_contains (by rw [containsSub_pair]; decide),
        replaceRunText_cons_not_contains (by rw [containsSub_pair]; decide),
        replaceRunText_cons_not_contains (by rw [containsSub_pair]; decide),
        replaceRunText_cons_not_contains (by rw [containsSub_pair]; decide),
        replaceRunText_cons_not_contains (by rw [containsSub_pair]; decide),
        replaceRunText_cons,
        (by decide : applyReplacement bareName
          (bareName, ([] : List Char)) = [])]
      rfl

/-- Witness for C2 at a concrete record missing every field: both forms
of the order-code placeholder are rewritten to the empty string. -/
theorem c2_witness :
    replaceRunText (build_replacements []) bracketedOrder = [] ∧
    replaceRunText (build_replacements []) bareOrder = [] :=
  (c2_replacement_map []).2.2.2.2.2.1 rfl

/-! ## Claim C3: placeholders split across runs -/

/-- Claim C3 is refuted at this input: the bracketed order-code token is
split over two runs (neither run contains the whole token), yet the
second run's text still changes, because the *bare* order-code key of
the program's own replacement map occurs inside that single fragment. -/
theorem c3_counterexample :
    (∀ run ∈ ([⟨"\x7b".data, 0⟩, ⟨"ستون کد سفارش\x7d".data, 1⟩] : List Run),
      containsSub bracketedOrder run.text = false) ∧
    (replace_text_in_paragraph ⟨[⟨"\x7b".data, 0⟩, ⟨"ستون کد سفارش\x7d".data, 1⟩]⟩
        (build_replacements [(orderField, "X".data)])).runs.map Run.text =
      ["\x7b".data, "X\x7d".data] ∧
    ["\x7b".data, "X\x7d".data] ≠
      ([⟨"\x7b".data, 0⟩, ⟨"ستون کد سفارش\x7d".data, 1⟩] : List Run).map Run.text :=
  ⟨by decide, by decide, by decide⟩

/-- Claim C3 (amended): substring matching is scoped to a single run, so
a paragraph in which no single run's text contains any key of the map —
in particular one where every placeholder is split across runs and no
fragment contains a bare-label key — is left completely unchanged. -/
theorem c3_split_scoped_to_runs (p : Paragraph) (reps : List (List Char × List Char))
    (h : ∀ run ∈ p.runs, ∀ pr ∈ reps, containsSub pr.1 run.text = false) :
    replace_text_in_paragraph p reps = p := by
  have hmap : ∀ runs : List Run,
      (∀ run ∈ runs, ∀ pr ∈ reps, containsSub pr.1 run.text = false) →
      runs.map (fun run => (⟨replaceRunText reps run.text, run.fmt⟩ : Run)) = runs := by
    intro runs
    induction runs with
    | nil => intro _; rfl
    | cons r rest ih =>
      intro hr
      have h1 : replaceRunText reps r.text = r.text :=
        replaceRunText_no_key (hr r (List.mem_cons_self r rest))
      simp [h1, ih (fun q hq => hr q (List.mem_cons_of_mem r hq))]
  rw [replace_text_in_paragraph, hmap p.runs h]

/-- Witness for the amended C3: a bracketed token split over two runs of
a concrete paragraph, with no map key inside either fragment, survives
substitution with a full replacement map untouched. -/
theorem c3_witness :
    replace_text_in_paragraph ⟨[⟨"\x7bستون".data, 0⟩, ⟨"کد\x7d".data, 1⟩]⟩
      (build_replacements []) = ⟨[⟨"\x7bستون".data, 0⟩, ⟨"کد\x7d".data, 1⟩]⟩ :=
  c3_split_scoped_to_runs _ _ (by decide)

/-! ## Split/join characterization of `replaceAll` -/

theorem splitGo_ne_nil (sep : List Char) :
    ∀ (fuel : Nat) (s : List Char), splitGo sep fuel s ≠ [] := by
  intro fuel
  induction fuel with
  | zero => intro s; cases s <;> simp [splitGo]
  | succ n ih =>
    intro s
    cases s with
    | nil => simp [splitGo]
    | cons c rest =>
      rw [splitGo]
      by_cases hp : sep.isPrefixOf (c :: rest) = true
      · simp [hp]
      · rw [if_neg hp]
        rcases hsg : splitGo sep n rest with _ | ⟨t, ts⟩ <;> simp [hsg]

theorem replaceAllGo_eq_joinWith (old new : List Char) (hold : old ≠ []) :
    ∀ (fuel : Nat) (s : List Char), s.length ≤ fuel →
      replaceAllGo old new fuel s = joinWith new (splitGo old fuel s) := by
  intro fuel
  induction fuel with
  | zero =>
    intro s hs
    have hnil : s = [] := List.eq_nil_of_length_eq_zero (Nat.le_zero.mp hs)
    subst hnil; rfl
  | succ n ih =>
    intro s hs
    cases s with
    | nil => rfl
    | cons c rest =>
      rw [replaceAllGo, splitGo]
      by_cases hp : old.isPrefixOf (c :: rest) = true
      · rw [if_pos hp, if_pos hp]
        have hone : 1 ≤ old.length := by
          cases old with
          | nil => exact absurd rfl hold
          | cons _ _ => simp
        have hlen : ((c :: rest).drop old.length).length ≤ n := by
          rw [List.length_drop]
          simp only [List.length_cons] at hs ⊢
          omega
        rw [ih _ hlen]
        rcases hsg : splitGo old n ((c :: rest).drop old.length) with _ | ⟨t, ts⟩
        · exact absurd hsg (splitGo_ne_nil old n _)
        · simp [joinWith]
      · rw [if_neg hp, if_neg hp]
        have hlen : rest.length ≤ n := by
          simp only [List.length_cons] at hs
          omega
        rw [ih rest hlen]
        rcases hsg : splitGo old n rest with _ | ⟨t, ts⟩
        · exact absurd hsg (splitGo_ne_nil old n rest)
        · cases ts with
          | nil => simp [joinWith]
          | cons t2 ts2 => simp [joinWith]

theorem replaceAll_eq_joinWith {old new s : List Char} (hold : old ≠ []) :
    replaceAll old new s = joinWith new (splitOnL old s) := by
  have hne : old.isEmpty = false := by
    cases old with
    | nil => exact absurd rfl hold
    | cons _ _ => rfl
  rw [replaceAll, splitOnL, hne]
  simp only [Bool.false_eq_true, if_false]
  exact replaceAllGo_eq_joinWith old new hold s.length s (Nat.le_refl _)

/-! ## Claim C4: per-run replace-all with formatting preserved -/

/-- Claim C4: substitution acts run by run — each run keeps its
formatting attributes and its text becomes the sequential application of
the map's pairs; one pair application with a non-empty contained key
replaces all (non-overlapping, left-to-right) occurrences of that key:
the new text is the old text split at the key and rejoined with the
replacement.  Every key of the program's replacement map is non-empty,
and a pair whose key does not occur leaves the text unchanged. -/
theorem c4_replace_all_occurrences (p : Paragraph) (reps : List (List Char × List Char)) :
    ((replace_text_in_paragraph p reps).runs.map Run.fmt = p.runs.map Run.fmt) ∧
    ((replace_text_in_paragraph p reps).runs.map Run.text =
      p.runs.map (fun run => replaceRunText reps run.text)) ∧
    (∀ row : RecordRow, ∀ key ∈ (build_replacements row).map Prod.fst, key ≠ []) ∧
    (∀ (t key repl : List Char), containsSub key t = false →
      applyReplacement t (key, repl) = t) ∧
    (∀ (t key repl : List Char), key ≠ [] → containsSub key t = true →
      applyReplacement t (key, repl) = joinWith repl (splitOnL key t)) := by
  refine ⟨?_, ?_, ?_, ?_, ?_⟩
  · simp [replace_text_in_paragraph, List.map_map, Function.comp]
  · simp [replace_text_in_paragraph, List.map_map, Function.comp]
  · intro row key hk
    have hkeys : (build_replacements row).map Prod.fst =
        [bracketedAddress, bracketedPhone, bracketedOrder, bracketedName,
         bareAddress, barePhone, bareOrder, bareName] := rfl
    rw [hkeys] at hk
    fin_cases hk <;> decide
  · intro t key repl h
    exact @applyReplacement_not_contains t (key, repl) h
  · intro t key repl hold h
    rw [applyReplacement]
    simp only [h, if_true]
    exact replaceAll_eq_joinWith hold

/-- Witness for C4: one pair application on a concrete run text replaces
both occurrences of the key and equals the split-and-rejoin form. -/
theorem c4_witness :
    applyReplacement "abcabc".data ("bc".data, "Z".data) =
      joinWith "Z".data (splitOnL "bc".data "abcabc".data) ∧
    joinWith "Z".data (splitOnL "bc".data "abcabc".data) = "aZaZ".data :=
  ⟨(c4_replace_all_occurrences ⟨[]⟩ []).2.2.2.2 _ _ _ (by decide) (by decide),
   by decide⟩

/-! ## Claim C5: substitution only rewrites leaf run texts -/

theorem erasePar_replace (p : Paragraph) (reps : List (List Char × List Char)) :
    erasePar (replace_text_in_paragraph p reps) = erasePar p := by
  simp [erasePar, replace_text_in_paragraph, List.map_map, Function.comp, eraseRun]

theorem eraseTable_replace (t : Table) (reps : List (List Char × List Char)) :
    eraseTable (replace_text_in_table t reps) = eraseTable t := by
  simp [eraseTable, replace_text_in_table, List.map_map, Function.comp, erasePar_replace]

theorem eraseHeaderFooter_replace (hf : HeaderFooter)
    (reps : List (List Char × List Char)) :
    eraseHeaderFooter (replaceInHeaderFooter hf reps) = eraseHeaderFooter hf := by
  simp [eraseHeaderFooter, replaceInHeaderFooter, List.map_map, Function.comp,
    erasePar_replace, eraseTable_replace]

theorem eraseDoc_replace (d : DocxDocument) (reps : List (List Char × List Char)) :
    eraseDoc (find_and_replace_in_document d reps) = eraseDoc d := by
  simp [eraseDoc, find_and_replace_in_document, List.map_map, Option.map_map,
    Function.comp, erasePar_replace, eraseTable_replace]
  intro sec _
  constructor
  · cases sec.header <;> simp [eraseHeaderFooter_replace]
  · cases sec.footer <;> simp [eraseHeaderFooter_replace]

theorem paragraphTexts_replace (p : Paragraph) (reps : List (List Char × List Char)) :
    paragraphTexts (replace_text_in_paragraph p reps) =
      (paragraphTexts p).map (replaceRunText reps) := by
  simp [paragraphTexts, replace_text_in_paragraph, List.map_map, Function.comp]

theorem tableTexts_replace (t : Table) (reps : List (List Char × List Char)) :
    tableTexts (replace_text_in_table t reps) =
      (tableTexts t).map (replaceRunText reps) := by
  simp [tableTexts, replace_text_in_table, List.flatMap_map, List.map_flatMap,
    Function.comp, paragraphTexts_replace]

theorem headerFooterTexts_replace (hf : HeaderFooter)
    (reps : List (List Char × List Char)) :
    headerFooterTexts (replaceInHeaderFooter hf reps) =
      (headerFooterTexts hf).map (replaceRunText reps) := by
  simp [headerFooterTexts, replaceInHeaderFooter, List.flatMap_map, List.map_flatMap,
    List.map_append, Function.comp, paragraphTexts_replace, tableTexts_replace]

theorem sectionTexts_replace (sec : DocSection) (reps : List (List Char × List Char)) :
    sectionTexts ⟨sec.header.map (replaceInHeaderFooter · reps),
                  sec.footer.map (replaceInHeaderFooter · reps)⟩ =
      (sectionTexts sec).map (replaceRunText reps) := by
  rcases sec with ⟨h, f⟩
  cases h <;> cases f <;>
    simp [sectionTexts, headerFooterTexts_replace, List.map_append]

theorem docTexts_replace (d : DocxDocument) (reps : List (List Char × List Char)) :
    docTexts (find_and_replace_in_document d reps) =
      (docTexts d).map (replaceRunText reps) := by
  simp [docTexts, find_and_replace_in_document, List.map_append, List.flatMap_map,
    List.map_flatMap, Function.comp, paragraphTexts_replace, tableTexts_replace,
    sectionTexts_replace]

/-- Claim C5: substitution changes only leaf run texts: the tree shape
of the document (paragraph/table/row/cell lists, section header/footer
lists, run counts and formatting) is identical before and after, the
leaf texts are rewritten pointwise by the per-run fold, and a run text
containing no key of the map is unchanged. -/
theorem c5_frame_preservation (d : DocxDocument) (reps : List (List Char × List Char)) :
    eraseDoc (find_and_replace_in_document d reps) = eraseDoc d ∧
    docTexts (find_and_replace_in_document d reps) =
      (docTexts d).map (replaceRunText reps) ∧
    (∀ t ∈ docTexts d, (∀ pr ∈ reps, containsSub pr.1 t = false) →
      replaceRunText reps t = t) :=
  ⟨eraseDoc_replace d reps, docTexts_replace d reps,
   fun _ _ h => replaceRunText_no_key h⟩

/-- Witness for C5: in a concrete one-paragraph document, a run text
containing no key of the full replacement map is unchanged. -/
theorem c5_witness :
    replaceRunText (build_replacements []) "abc".data = "abc".data :=
  (c5_frame_preservation ⟨[⟨[⟨"abc".data, 0⟩]⟩], [], []⟩ (build_replacements [])).2.2
    "abc".data (by decide) (by decide)

/-! ## Claim C6: deterministic enumeration order of the map -/

/-- Claim C6: within a run the pairs are applied sequentially in the
replacement map's insertion order, which lists the four bracketed forms
before the four bare forms; the order is observable: applying the same
two pairs in the reverse order yields a different result, and the
engine's result is the insertion-order one. -/
theorem c6_insertion_order :
    (∀ row : RecordRow, (build_replacements row).map Prod.fst =
      [bracketedAddress, bracketedPhone, bracketedOrder, bracketedName,
       bareAddress, barePhone, bareOrder, bareName]) ∧
    (∀ (t : List Char) (pr : List Char × List Char)
        (rest : List (List Char × List Char)),
      replaceRunText (pr :: rest) t = replaceRunText rest (applyReplacement t pr)) ∧
    replaceRunText [("ab".data, "c".data), ("b".data, "d".data)] "ab".data =
      "c".data ∧
    replaceRunText [("b".data, "d".data), ("ab".data, "c".data)] "ab".data =
      "ad".data ∧
    "c".data ≠ "ad".data :=
  ⟨fun _ => rfl, fun _ _ _ => rfl, by decide, by decide, by decide⟩

/-! ## Claim C7: filename sanitization -/

theorem mem_sanitize_safe {c : Char} {s : List Char} (h : c ∈ sanitize s) :
    c ∉ invalidChars := by
  rw [sanitize] at h
  rcases List.mem_map.mp h with ⟨c', _, rfl⟩
  by_cases hmem : c' ∈ invalidChars
  · rw [if_pos hmem]
    decide
  · rw [if_neg hmem]
    exact hmem

/-- Claim C7: for every record and index, the generated filename
contains none of the forbidden characters; the terminal sanitization
pass maps each of them, anywhere in the concatenated name including
inside the derived keys, to an underscore. -/
theorem c7_sanitized (row : RecordRow) (index : Nat) :
    ∀ c ∈ generate_filename row index, c ∉ invalidChars := by
  intro c hc
  rw [generate_filename] at hc
  exact mem_sanitize_safe hc

/-- Witness for C7 at a concrete record whose order code contains `/`:
the slash is gone and the produced underscore is not forbidden. -/
theorem c7_witness :
    generate_filename [(orderField, "a/b".data)] 2 = "a_b_customer_2.docx".data ∧
    ('_' : Char) ∉ invalidChars :=
  ⟨by decide, c7_sanitized [(orderField, "a/b".data)] 2 '_' (by decide)⟩

/-! ## Claim C8: per-record failure recovery and the batch tally -/

theorem create_result_iff (env : InstEnv) (fs : FsState) :
    (create_docx_from_template env fs).1 = true ↔
      env.saveTempFails = false ∧ env.reloadFails = false ∧
      env.substituteFails = false ∧ env.persistFails = false := by
  rcases env with ⟨a, b, c, d⟩
  rcases fs with ⟨te⟩
  cases a <;> cases b <;> cases c <;> cases d <;> cases te <;> decide

theorem processRecords_tally (rs : List RecordEnv) : ∀ fs : FsState,
    (processRecords rs fs).1 + (processRecords rs fs).2.1 = rs.length := by
  induction rs with
  | nil => intro fs; rfl
  | cons r rest ih =>
    intro fs
    simp only [processRecords, List.length_cons]
    by_cases hr : r.rowRaises = true
    · rw [if_pos hr]
      have h1 := ih fs
      cases hout : processRecords rest fs with
      | mk a bc =>
        rw [hout] at h1
        simp at h1 ⊢
        omega
    · rw [if_neg hr]
      have h1 := ih (create_docx_from_template r.env fs).2
      cases hout : processRecords rest (create_docx_from_template r.env fs).2 with
      | mk a bc =>
        rw [hout] at h1
        simp at h1 ⊢
        by_cases hb : (create_docx_from_template r.env fs).1 = true
        · rw [if_pos hb]
          simp
          omega
        · rw [if_neg hb]
          simp
          omega

/-- Claim C8: `create_docx_from_template` is a total boolean function of
the failure environment — an exception in any step (saving the temp
copy, reloading, substituting, persisting) is caught and surfaces as a
`False` return, never propagating — and the batch loop counts every
record exactly once, so succeeded + failed = total regardless of which
records fail or raise. -/
theorem c8_per_record_recovery (env : InstEnv) (fs : FsState) (rs : List RecordEnv) :
    ((create_docx_from_template env fs).1 = true ↔
      env.saveTempFails = false ∧ env.reloadFails = false ∧
      env.substituteFails = false ∧ env.persistFails = false) ∧
    (processRecords rs fs).1 + (processRecords rs fs).2.1 = rs.length :=
  ⟨create_result_iff env fs, processRecords_tally rs fs⟩

/-! ## Claim C9: the temporary copy on failure paths -/

/-- Claim C9 fails on the code: when reloading the temporary copy
raises, `create_docx_from_template` returns `False` with
`temp_template.docx` still on disk — the cleanup sits inside the `try`
block after the reload instead of in a `finally` — while on the
success path the temporary file is removed. -/
theorem c9_temp_file_leak :
    create_docx_from_template ⟨false, true, false, false⟩ ⟨false⟩ =
      (false, ⟨true⟩) ∧
    create_docx_from_template ⟨false, false, false, false⟩ ⟨false⟩ =
      (true, ⟨false⟩) :=
  ⟨rfl, rfl⟩

/-! ## Claim C10: sequential, non-simultaneous substitution -/

/-- Claim C10: the run text after substitution is the left-to-right fold
of single-pair replace-all over the map in insertion order; with the
program's own map and a record whose address value is the bare
recipient-name label, the address pair's output is rewritten again by
the later name pair, so the final text differs from the single-pass
(simultaneous) result. -/
theorem c10_sequential_fold :
    (∀ (reps : List (List Char × List Char)) (t : List Char),
      replaceRunText reps t = reps.foldl applyReplacement t) ∧
    replaceRunText
      (build_replacements [(addressField, bareName), (nameField, "X".data)])
      bracketedAddress = "X".data ∧
    applyReplacement bracketedAddress
      (bracketedAddress,
        getD [(addressField, bareName), (nameField, "X".data)] addressField []) =
      bareName ∧
    "X".data ≠ bareName :=
  ⟨fun _ _ => rfl, by decide, by decide, by decide⟩

end DocxGen
